import Mathlib

/-!
Verification of the telegram-todo-bot repository against its specification.

The repository holds two variants of the bot:
* `src/unnamed/part_000` — the JSONBin-backed variant (embedded below in
  namespace `Jsonbin`);
* `src/index.js` — the lowdb-backed variant (embedded in namespace `Lowdb`).

JavaScript string and number primitives used by the sources are modelled
explicitly and executably (`jsTrim`, `jsSplitSpace`, `jsToLower`, `jsJoin`,
`jsNumber`, `jsGet`, `jsSet`, `jsSplice1`), so every definition evaluates on
concrete inputs.  Machine floating point is not needed: every number the bot
manipulates is a decimal literal parsed from a command token, modelled
exactly as a fraction `n / d` with `d` a positive power of ten.
-/

set_option maxHeartbeats 1000000

/-- Whitespace predicate used by the JS `trim` model (covers the ASCII
whitespace the bot can meet). -/
def wsChar (c : Char) : Bool := c.isWhitespace

/-- Character-list form of `String.prototype.trim`: drop leading and trailing
whitespace. -/
def trimChars (l : List Char) : List Char :=
  ((l.dropWhile wsChar).reverse.dropWhile wsChar).reverse

/-- Model of JS `text.trim()`. -/
def jsTrim (s : String) : String := ⟨trimChars s.data⟩

/-- Model of JS `text.split(" ")` on a character list: split at every single
space character, keeping empty segments (as JS does for a one-character
string separator). -/
def splitSpaceAux : List Char → List Char → List String
  | [], acc => [⟨acc.reverse⟩]
  | c :: rest, acc =>
    if c = ' ' then (⟨acc.reverse⟩ : String) :: splitSpaceAux rest []
    else splitSpaceAux rest (c :: acc)

/-- Model of JS `text.split(" ")`. -/
def jsSplitSpace (s : String) : List String := splitSpaceAux s.data []

/-- Model of JS `text.toLowerCase()` (ASCII, which is all the command tokens
use). -/
def jsToLower (s : String) : String := ⟨s.data.map Char.toLower⟩

/-- Model of JS `Array.prototype.join(sep)`. -/
def jsJoin (sep : String) : List String → String
  | [] => ""
  | [x] => x
  | x :: y :: xs => x ++ sep ++ jsJoin sep (y :: xs)

/-- Model of JS `Array.prototype.map((t, i) => ...)`: map with the element
index, starting at `start`. -/
def jsMapIdx (f : ℕ → String → String) : ℕ → List String → List String
  | _, [] => []
  | i, x :: xs => f i x :: jsMapIdx f (i + 1) xs

/-- A finite JS number as produced by `Number(...)` on a decimal token: the
exact value `n / d`.  The parser `jsNumber` below only ever constructs
denominators that are positive powers of ten, so `0 < d` holds for every
value that reaches the command handlers. -/
structure JsRat where
  n : ℤ
  d : ℕ
deriving Repr, DecidableEq

/-- `q - 1` on JS numbers (the `idx - 1` of the sources). -/
def JsRat.sub1 (q : JsRat) : JsRat := ⟨q.n - q.d, q.d⟩

/-- Truncation toward zero (JS `ToIntegerOrInfinity` on a finite value;
`Int.tdiv` truncates toward zero, which is exact for `0 < d`). -/
def JsRat.trunc (q : JsRat) : ℤ := q.n.tdiv (q.d : ℤ)

/-- Result of JS `Number(...)` on a command token: `NaN` or a value. -/
inductive JsNum where
  | nan : JsNum
  | num : JsRat → JsNum
deriving Repr, DecidableEq

/-- Value of a list of decimal digits. -/
def digitsVal (l : List Char) : ℕ :=
  l.foldl (fun a c => a * 10 + (c.toNat - 48)) 0

/-- Parse an unsigned decimal literal (`digits`, `digits.digits`, `.digits`,
`digits.`) — the fragment of JS numeric literals the bot's tokens can
contain.  Hex, exponent and `Infinity` forms are not modelled (no claim
exercises them). -/
def parseDecimal (l : List Char) : Option JsRat :=
  match l.span (fun c => c.isDigit) with
  | (ip, []) => if ip = [] then none else some ⟨(digitsVal ip : ℕ), 1⟩
  | (ip, c :: fp) =>
    if c = '.' ∧ fp.all (fun d => d.isDigit) ∧ (ip ≠ [] ∨ fp ≠ []) then
      some ⟨(digitsVal ip * 10 ^ fp.length + digitsVal fp : ℕ), 10 ^ fp.length⟩
    else none

/-- Model of JS `Number(parts[i])` where the argument may be `undefined`
(`none`): `Number(undefined) = NaN`, `Number("") = 0`, whitespace is
trimmed, and an optional sign precedes a decimal literal. -/
def jsNumber : Option String → JsNum
  | none => JsNum.nan
  | some s =>
    match (jsTrim s).data with
    | [] => JsNum.num ⟨0, 1⟩
    | c :: rest =>
      if c = '-' then
        match parseDecimal rest with
        | some q => JsNum.num ⟨-q.n, q.d⟩
        | none => JsNum.nan
      else if c = '+' then
        match parseDecimal rest with
        | some q => JsNum.num q
        | none => JsNum.nan
      else
        match parseDecimal (c :: rest) with
        | some q => JsNum.num q
        | none => JsNum.nan

/-- String form of a JS number in a template literal.  Only integral values
reach a response string in the sources, so only that case is rendered
faithfully. -/
def jsNumDisplay (q : JsRat) : String :=
  if q.n % (q.d : ℤ) = 0 then toString q.trunc
  else toString q.n ++ "/" ++ toString q.d

/-- Model of JS array read `arr[x]` at a numeric index: `undefined` (`none`)
unless `x` is a non-negative integer within bounds (a fractional or negative
`x` is an absent property key). -/
def jsGet (l : List String) (q : JsRat) : Option String :=
  if q.n % (q.d : ℤ) = 0 ∧ 0 ≤ q.n then l[q.trunc.toNat]? else none

/-- Model of JS array write `arr[x] = v` at a numeric index (the sources
only reach it when `arr[x]` exists; other writes leave the array model
unchanged). -/
def jsSet (l : List String) (q : JsRat) (v : String) : List String :=
  if q.n % (q.d : ℤ) = 0 ∧ 0 ≤ q.n then l.set q.trunc.toNat v else l

/-- Model of JS `arr.splice(start, 1)`: the removed elements and the
remaining array.  `start` is truncated toward zero; a negative value counts
from the end, clamped at `0`; a value past the end removes nothing. -/
def jsSplice1 (l : List String) (q : JsRat) : List String × List String :=
  let t : ℤ := q.trunc
  let s : ℕ := if t < 0 then (t + l.length).toNat else min t.toNat l.length
  ((l.drop s).take 1, l.take s ++ l.drop (s + 1))

/-- The persisted task document: the two lists. -/
structure TaskDocument where
  weekday : List String
  weekend : List String
deriving Repr, DecidableEq

/-- `db[name]` for a valid list name (only reached with `name` equal to
`"weekday"` or `"weekend"`). -/
def getList (db : TaskDocument) (name : String) : List String :=
  if name = "weekday" then db.weekday else db.weekend

/-- `db[name] = l` for a valid list name. -/
def setList (db : TaskDocument) (name : String) (l : List String) : TaskDocument :=
  if name = "weekday" then { db with weekday := l } else { db with weekend := l }

/-- The other of the two list names. -/
def otherListName (name : String) : String :=
  if name = "weekday" then "weekend" else "weekday"

/-- Observable effect of one webhook call: unauthorized updates are dropped
(`ignored`); otherwise exactly one message is sent, and a mutating command
additionally passes a document to the storage client's save. -/
inductive Outcome where
  | ignored : Outcome
  | reply : Option TaskDocument → String → Outcome
deriving Repr, DecidableEq

/-- The document persisted after a command: the saved one if a save
happened, otherwise the previous document. -/
def docAfter (o : Outcome) (db : TaskDocument) : TaskDocument :=
  match o with
  | Outcome.ignored => db
  | Outcome.reply none _ => db
  | Outcome.reply (some d) _ => d

/-- `const parts = text.trim().split(" ")` (both variants). -/
def partsOf (text : String) : List String := jsSplitSpace (jsTrim text)

/-- `const cmd = parts[0].toLowerCase()` (both variants; `split` never
returns an empty array, so the default is never used). -/
def cmdOf (text : String) : String := jsToLower ((partsOf text).headD "")

namespace Jsonbin

/-- `formatList` from `src/unnamed/part_000`. -/
def formatList (list : List String) : String :=
  if list = [] then "_(empty)_"
  else jsJoin "\n" (jsMapIdx (fun i t => toString (i + 1) ++ ". " ++ t) 0 list)

/-- `getListTypeByDay` from `src/unnamed/part_000`, parameterized by the
weekday name the `Date`/timezone environment produces. -/
def getListTypeByDay (dayName : String) : String :=
  if dayName = "Saturday" ∨ dayName = "Sunday" then "weekend" else "weekday"

/-- `handleCommand` from `src/unnamed/part_000`.  The document fetched by
`getData` is the `db` argument; the returned `Outcome` records the message
passed to `sendTelegram` and the document passed to `saveData` (if any).
The `!idx` falsiness check is `q.n = 0` (`NaN` is the separate `nan` case;
a value is zero exactly when its numerator is). -/
def handleCommand (text fromId chatId : String) (db : TaskDocument) : Outcome :=
  if fromId ≠ chatId then Outcome.ignored
  else if cmdOf text = "/help" then
    Outcome.reply none ("*To-Do Bot Commands*\n\n/add <weekday|weekend> <task>\n/view <weekday|weekend>\n/edit <weekday|weekend> <index> <new task>\n/remove <weekday|weekend> <index>\n/lists — view both lists\n")
  else if cmdOf text = "/lists" then
    Outcome.reply none ("*Weekday:*\n" ++ formatList db.weekday ++ "\n\n*Weekend:*\n" ++ formatList db.weekend)
  else if cmdOf text = "/view" then
    let list := (partsOf text).getD 1 ""
    if ¬(list = "weekday" ∨ list = "weekend") then
      Outcome.reply none "Usage: /view <weekday|weekend>"
    else Outcome.reply none ("*" ++ list ++ "*\n" ++ formatList (getList db list))
  else if cmdOf text = "/add" then
    let list := (partsOf text).getD 1 ""
    let task := jsTrim (jsJoin " " ((partsOf text).drop 2))
    if ¬(list = "weekday" ∨ list = "weekend") ∨ task = "" then
      Outcome.reply none "Usage: /add <weekday|weekend> <task>"
    else
      Outcome.reply (some (setList db list (getList db list ++ [task])))
        ("✅ Added to *" ++ list ++ "*: " ++ task)
  else if cmdOf text = "/edit" then
    let list := (partsOf text).getD 1 ""
    let newText := jsTrim (jsJoin " " ((partsOf text).drop 3))
    match jsNumber ((partsOf text)[2]?) with
    | JsNum.nan => Outcome.reply none "Usage: /edit <weekday|weekend> <index> <new text>"
    | JsNum.num q =>
      if ¬(list = "weekday" ∨ list = "weekend") ∨ q.n = 0 ∨ newText = "" then
        Outcome.reply none "Usage: /edit <weekday|weekend> <index> <new text>"
      else
        match jsGet (getList db list) q.sub1 with
        | none => Outcome.reply none "❌ Index out of range."
        | some old =>
          if old = "" then Outcome.reply none "❌ Index out of range."
          else
            Outcome.reply (some (setList db list (jsSet (getList db list) q.sub1 newText)))
              ("✏️ Edited *" ++ list ++ "* " ++ jsNumDisplay q ++ ": \"" ++ old ++ "\" → \"" ++ newText ++ "\"")
  else if cmdOf text = "/remove" then
    let list := (partsOf text).getD 1 ""
    match jsNumber ((partsOf text)[2]?) with
    | JsNum.nan => Outcome.reply none "Usage: /remove <weekday|weekend> <index>"
    | JsNum.num q =>
      if ¬(list = "weekday" ∨ list = "weekend") ∨ q.n = 0 then
        Outcome.reply none "Usage: /remove <weekday|weekend> <index>"
      else
        let sp := jsSplice1 (getList db list) q.sub1
        match sp.1 with
        | [removed] =>
          Outcome.reply (some (setList db list sp.2))
            ("🗑️ Removed from *" ++ list ++ "*: " ++ removed)
        | _ => Outcome.reply (some (setList db list sp.2)) "❌ Index out of range."
  else Outcome.reply none "Unknown command. Use /help for usage."

/-- `saveData` from `src/unnamed/part_000`: the PUT either succeeds
(`saveOk = true`, remote state becomes the saved document) or fails (remote
state unchanged); both ways the failure is only logged and the function
returns normally — it has no error result at all. -/
def saveData (saveOk : Bool) (remote newDoc : TaskDocument) : TaskDocument :=
  if saveOk then newDoc else remote

/-- One full webhook round trip of `src/unnamed/part_000`: handle the
command against the fetched document, perform the save (if any) with
outcome `saveOk`, and return the resulting remote document together with
the message sent to the user. -/
def handleWithSave (text fromId chatId : String) (remote : TaskDocument)
    (saveOk : Bool) : TaskDocument × Option String :=
  match handleCommand text fromId chatId remote with
  | Outcome.ignored => (remote, none)
  | Outcome.reply none msg => (remote, some msg)
  | Outcome.reply (some d) msg => (saveData saveOk remote d, some msg)

/-- The `app.get("/")` daily digest of `src/unnamed/part_000`,
parameterized by the weekday name of the current date. -/
def dailyDigest (dayName : String) (db : TaskDocument) : String :=
  let listType := getListTypeByDay dayName
  let list := getList db listType
  if list.length ≠ 0 then
    "🗓️ Good morning, Digi!\nYour *" ++ listType ++ "* tasks:\n\n" ++ formatList list
  else "✅ You have no *" ++ listType ++ "* tasks today!"

end Jsonbin

namespace Lowdb

/-- `prettyList` from `src/index.js`. -/
def prettyList (list : List String) : String :=
  if list = [] then "_(empty)_"
  else jsJoin "\n" (jsMapIdx (fun i t => toString (i + 1) ++ ". " ++ t) 0 list)

/-- `istDayType` from `src/index.js`, parameterized by the weekday name the
`Intl.DateTimeFormat`/timezone environment produces. -/
def istDayType (dayName : String) : String :=
  if dayName = "Saturday" ∨ dayName = "Sunday" then "weekend" else "weekday"

/-- `handleCommand` from `src/index.js` (called only after the webhook's
authorization check).  `db` is the lowdb document at the time of the
command's `db.read()`.  The `!Number.isInteger(idx) || idx < 1` check is
`q.n % q.d ≠ 0 ∨ q.n < q.d` (`Number.isInteger` is divisibility, and with `0 < d`, `n / d < 1` iff `n < d`). -/
def handleCommand (text : String) (db : TaskDocument) : Outcome :=
  if cmdOf text = "/help" then
    Outcome.reply none ("*Todo Bot Help*\n\n/add <weekday|weekend> <task> - add a task\n/view <weekday|weekend> - view tasks\n/edit <weekday|weekend> <index> <new task> - edit\n/remove <weekday|weekend> <index> - remove task\n/lists - show both lists")
  else if cmdOf text = "/lists" then
    Outcome.reply none ("*Weekday:*\n" ++ prettyList db.weekday ++ "\n\n*Weekend:*\n" ++ prettyList db.weekend)
  else if cmdOf text = "/view" then
    let listName := (partsOf text).getD 1 ""
    if ¬(listName = "weekday" ∨ listName = "weekend") then
      Outcome.reply none "Usage: /view <weekday|weekend>"
    else Outcome.reply none ("*" ++ listName ++ "*\n" ++ prettyList (getList db listName))
  else if cmdOf text = "/add" then
    let listName := (partsOf text).getD 1 ""
    if ¬(listName = "weekday" ∨ listName = "weekend") then
      Outcome.reply none "Usage: /add <weekday|weekend> <task>"
    else
      let task := jsTrim (jsJoin " " ((partsOf text).drop 2))
      if task = "" then Outcome.reply none "Please provide a task text."
      else
        Outcome.reply (some (setList db listName (getList db listName ++ [task])))
          ("Added to *" ++ listName ++ "*: " ++ task)
  else if cmdOf text = "/edit" then
    let listName := (partsOf text).getD 1 ""
    let newText := jsTrim (jsJoin " " ((partsOf text).drop 3))
    match jsNumber ((partsOf text)[2]?) with
    | JsNum.nan => Outcome.reply none "Usage: /edit <weekday|weekend> <index> <new text>"
    | JsNum.num q =>
      if ¬(listName = "weekday" ∨ listName = "weekend") ∨ q.n % (q.d : ℤ) ≠ 0 ∨ q.n < (q.d : ℤ) ∨ newText = "" then
        Outcome.reply none "Usage: /edit <weekday|weekend> <index> <new text>"
      else
        match jsGet (getList db listName) q.sub1 with
        | none => Outcome.reply none "Index out of range."
        | some old =>
          if old = "" then Outcome.reply none "Index out of range."
          else
            Outcome.reply (some (setList db listName (jsSet (getList db listName) q.sub1 newText)))
              ("Edited *" ++ listName ++ "* " ++ jsNumDisplay q ++ ": \"" ++ old ++ "\" → \"" ++ newText ++ "\"")
  else if cmdOf text = "/remove" then
    let listName := (partsOf text).getD 1 ""
    match jsNumber ((partsOf text)[2]?) with
    | JsNum.nan => Outcome.reply none "Usage: /remove <weekday|weekend> <index>"
    | JsNum.num q =>
      if ¬(listName = "weekday" ∨ listName = "weekend") ∨ q.n % (q.d : ℤ) ≠ 0 ∨ q.n < (q.d : ℤ) then
        Outcome.reply none "Usage: /remove <weekday|weekend> <index>"
      else
        let sp := jsSplice1 (getList db listName) q.sub1
        match sp.1 with
        | [removed] =>
          Outcome.reply (some (setList db listName sp.2))
            ("Removed from *" ++ listName ++ "*: " ++ removed)
        | _ => Outcome.reply (some (setList db listName sp.2)) "Index out of range."
  else Outcome.reply none "Unknown command. Use /help for commands."

/-- The `app.post("/webhook")` handler of `src/index.js`: commands from a
sender other than the configured `CHAT_ID` are ignored before any parsing. -/
def webhook (text fromId chatId : String) (db : TaskDocument) : Outcome :=
  if fromId ≠ chatId then Outcome.ignored
  else handleCommand text db

/-- The `app.get("/")` digest of `src/index.js`, parameterized by the
weekday name of the current date. -/
def digest (dayName : String) (db : TaskDocument) : String :=
  "🗓️ *Good morning!* Here is your *" ++ istDayType dayName ++
    "* list for today:\n\n" ++ prettyList (getList db (istDayType dayName))

end Lowdb

/-- A raw persisted record as the storage backend may return it: either list
field may be missing (a malformed document). -/
structure RawRecord where
  weekdayField : Option (List String)
  weekendField : Option (List String)
deriving Repr, DecidableEq

/-- The default empty document `{weekday: [], weekend: []}`. -/
def defaultRecord : RawRecord := ⟨some [], some []⟩

/-- Result of the remote fetch in `getData`: a thrown transport/parse error,
or a JSON body whose `record` field may be absent/null. -/
inductive FetchResult where
  | fetchError : FetchResult
  | ok : Option RawRecord → FetchResult
deriving Repr, DecidableEq

/-- `getData` from `src/unnamed/part_000`: `json.record || {weekday: [],
weekend: []}`, with the default also returned on a thrown error. -/
def Jsonbin.getData : FetchResult → RawRecord
  | FetchResult.fetchError => defaultRecord
  | FetchResult.ok none => defaultRecord
  | FetchResult.ok (some r) => r

/-- `initDB` from `src/index.js`: `db.data = db.data || {weekday: [],
weekend: []}`. -/
def Lowdb.initDB (data : Option RawRecord) : RawRecord := data.getD defaultRecord

/-- Character-list worker for `specTokenize`: split at every whitespace
character. -/
def specSplitWsAux : List Char → List Char → List String
  | [], acc => [⟨acc.reverse⟩]
  | c :: rest, acc =>
    if c.isWhitespace then (⟨acc.reverse⟩ : String) :: specSplitWsAux rest []
    else specSplitWsAux rest (c :: acc)

/-- Modelled from the spec's words (for comparison only, claim C9): "split
the command line on whitespace" — the whitespace-separated tokens of the
line, with empty tokens dropped, so any run of whitespace separates. -/
def specTokenize (s : String) : List String :=
  (specSplitWsAux s.data []).filter (fun t => t ≠ "")

/-- The reachable-document invariant: every stored task is non-empty after
trimming. -/
def invariant (db : TaskDocument) : Prop :=
  (∀ s ∈ db.weekday, jsTrim s ≠ "") ∧ (∀ s ∈ db.weekend, jsTrim s ≠ "")

/-- Run a sequence of webhook updates (text, fromId, chatId) through the
JSONBin variant, threading the persisted document. -/
def Jsonbin.runSeq (steps : List (String × String × String)) (db : TaskDocument) :
    TaskDocument :=
  steps.foldl (fun d s => docAfter (Jsonbin.handleCommand s.1 s.2.1 s.2.2 d) d) db

/-- Run a sequence of webhook updates through the lowdb variant. -/
def Lowdb.runSeq (steps : List (String × String × String)) (db : TaskDocument) :
    TaskDocument :=
  steps.foldl (fun d s => docAfter (Lowdb.webhook s.1 s.2.1 s.2.2 d) d) db

/-- The index argument denotes an integer value that is at least 1. -/
def intIndexGe1 (v : JsNum) : Prop :=
  ∃ (q : JsRat) (k : ℕ), v = JsNum.num q ∧ 1 ≤ k ∧ q.n = (k : ℤ) * q.d

/-- The index argument denotes an integer position between 1 and `len`. -/
def validIndexFor (v : JsNum) (len : ℕ) : Prop :=
  ∃ (q : JsRat) (k : ℕ), v = JsNum.num q ∧ 1 ≤ k ∧ k ≤ len ∧ q.n = (k : ℤ) * q.d

/-! ### Helper lemmas about the JS primitive models -/

lemma parseDecimal_d_pos (l : List Char) (q : JsRat) (h : parseDecimal l = some q) : 0 < q.d := by
  unfold parseDecimal at h
  split at h
  · split at h
    · exact absurd h (by simp)
    · simp at h; subst h; simp
  · split at h
    · simp at h; subst h; positivity
    · exact absurd h (by simp)

lemma jsNumber_d_pos (o : Option String) (q : JsRat) (h : jsNumber o = JsNum.num q) : 0 < q.d := by
  unfold jsNumber at h
  rcases o with _ | s
  · simp at h
  · simp only at h
    split at h
    · simp at h; subst h; simp
    · split at h
      · split at h
        · rename_i hq
          simp at h; subst h
          simpa using parseDecimal_d_pos _ _ hq
        · simp at h
      · split at h
        · split at h
          · rename_i hq
            simp at h; subst h
            exact parseDecimal_d_pos _ _ hq
          · simp at h
        · split at h
          · rename_i hq
            simp at h; subst h
            exact parseDecimal_d_pos _ _ hq
          · simp at h

lemma jsGet_intVal (l : List String) (q : JsRat) (k : ℕ) (hd : 0 < q.d)
    (hv : q.n = (k : ℤ) * q.d) : jsGet l q = l[k]? := by
  unfold jsGet JsRat.trunc
  rw [hv, if_pos ⟨Int.mul_emod_left _ _, by positivity⟩,
    Int.mul_tdiv_cancel _ (by exact_mod_cast hd.ne')]
  simp

lemma jsSet_intVal (l : List String) (q : JsRat) (v : String) (k : ℕ) (hd : 0 < q.d)
    (hv : q.n = (k : ℤ) * q.d) : jsSet l q v = l.set k v := by
  unfold jsSet JsRat.trunc
  rw [hv, if_pos ⟨Int.mul_emod_left _ _, by positivity⟩,
    Int.mul_tdiv_cancel _ (by exact_mod_cast hd.ne')]
  simp

lemma jsSplice1_intVal_lt (l : List String) (q : JsRat) (m : ℕ) (hd : 0 < q.d)
    (hv : q.n = (m : ℤ) * q.d) (hm : m < l.length) :
    jsSplice1 l q = ([l.getD m ""], l.take m ++ l.drop (m + 1)) := by
  simp only [jsSplice1, JsRat.trunc]
  rw [hv, Int.mul_tdiv_cancel _ (by exact_mod_cast hd.ne'),
    if_neg (not_lt.mpr (by positivity)), Int.toNat_natCast, min_eq_left hm.le,
    List.drop_eq_getElem_cons hm, List.take_succ_cons, List.take_zero,
    List.getD_eq_getElem l "" hm]

lemma jsSplice1_intVal_ge (l : List String) (q : JsRat) (m : ℕ) (hd : 0 < q.d)
    (hv : q.n = (m : ℤ) * q.d) (hm : l.length ≤ m) :
    jsSplice1 l q = ([], l) := by
  simp only [jsSplice1, JsRat.trunc]
  rw [hv, Int.mul_tdiv_cancel _ (by exact_mod_cast hd.ne'),
    if_neg (not_lt.mpr (by positivity)), Int.toNat_natCast, min_eq_right hm]
  simp [List.drop_length, List.take_length,
    List.drop_eq_nil_of_le (by omega : l.length <= l.length + 1)]

lemma dropWhile_head_false {a} (p : a -> Bool) (l : List a) :
    ∀ c, (l.dropWhile p).head? = some c → p c = false := by
  induction l with
  | nil => intro c h; simp [List.dropWhile] at h
  | cons x t ih =>
    intro c h
    by_cases hpa : p x = true
    · rw [List.dropWhile_cons, if_pos hpa] at h; exact ih c h
    · rw [List.dropWhile_cons, if_neg hpa] at h
      simp at h
      subst h
      simpa using hpa

lemma dropWhile_eq_self {a} (p : a -> Bool) (l : List a)
    (h : ∀ c, l.head? = some c → p c = false) : l.dropWhile p = l := by
  cases l with
  | nil => rfl
  | cons x t => rw [List.dropWhile_cons, if_neg (by simp [h x rfl])]

lemma exists_prepend_dropWhile {a} (p : a -> Bool) (l : List a) :
    ∃ t, l = t ++ l.dropWhile p := by
  induction l with
  | nil => exact ⟨[], rfl⟩
  | cons x t ih =>
    by_cases hpa : p x = true
    · rcases ih with ⟨u, hu⟩
      exact ⟨x :: u, by rw [List.dropWhile_cons, if_pos hpa]; simpa using hu⟩
    · exact ⟨[], by rw [List.dropWhile_cons, if_neg hpa]; rfl⟩

lemma trimChars_idem (l : List Char) : trimChars (trimChars l) = trimChars l := by
  unfold trimChars
  set m := l.dropWhile wsChar with hm
  set r := m.reverse.dropWhile wsChar with hr
  have hdrop1 : (r.reverse).dropWhile wsChar = r.reverse := by
    apply dropWhile_eq_self
    intro c hc
    rcases exists_prepend_dropWhile wsChar m.reverse with ⟨u, hu⟩
    rw [← hr] at hu
    have hm2 : m = r.reverse ++ u.reverse := by
      have h2 := congrArg List.reverse hu
      simpa [List.reverse_append] using h2
    have hcm : m.head? = some c := by
      rw [hm2]
      cases hre : r.reverse with
      | nil => rw [hre] at hc; simp at hc
      | cons x xs =>
        rw [hre] at hc
        simp at hc
        subst hc
        simp
    rw [hm] at hcm
    exact dropWhile_head_false wsChar l c hcm
  rw [hdrop1, List.reverse_reverse]
  have hr2 : r.dropWhile wsChar = r := by
    apply dropWhile_eq_self
    intro c hc
    rw [hr] at hc
    exact dropWhile_head_false wsChar m.reverse c hc
  rw [hr2]

lemma jsTrim_idem (s : String) : jsTrim (jsTrim s) = jsTrim s :=
  congrArg String.mk (trimChars_idem s.data)

lemma jsTrim_self_ne (x s : String) (h : jsTrim x = s) (hne : s ≠ "") : jsTrim s ≠ "" := by
  rw [← h, jsTrim_idem, h]; exact hne

lemma jsJoin_concat (sep y : String) (xs : List String) :
    jsJoin sep (xs ++ [y]) = (if xs = [] then "" else jsJoin sep xs ++ sep) ++ y := by
  induction xs with
  | nil => simp [jsJoin]
  | cons x t ih =>
    cases t with
    | nil => simp [jsJoin, String.append_assoc]
    | cons b u =>
      rw [show jsJoin sep ((x :: b :: u) ++ [y]) = x ++ sep ++ jsJoin sep ((b :: u) ++ [y]) from
        rfl, ih]
      simp [jsJoin, String.append_assoc]

lemma jsMapIdx_append_one (f : ℕ → String → String) (y : String) (xs : List String) :
    ∀ start : ℕ,
      jsMapIdx f start (xs ++ [y]) = jsMapIdx f start xs ++ [f (start + xs.length) y] := by
  induction xs with
  | nil => intro start; simp [jsMapIdx]
  | cons x t ih =>
    intro start
    rw [show (x :: t) ++ [y] = x :: (t ++ [y]) from rfl]
    simp only [jsMapIdx]
    rw [ih (start + 1)]
    have harith : start + 1 + t.length = start + (x :: t).length := by
      simp only [List.length_cons]
      omega
    rw [harith]
    rfl

lemma jsMapIdx_ne_nil (f : ℕ → String → String) (start : ℕ) (xs : List String) (h : xs ≠ []) :
    jsMapIdx f start xs ≠ [] := by
  cases xs <;> simp [jsMapIdx] at *

lemma formatList_concat (l : List String) (t : String) :
    Jsonbin.formatList (l ++ [t]) =
      (if l = [] then "" else Jsonbin.formatList l ++ "\n") ++
        (toString (l.length + 1) ++ ". " ++ t) := by
  cases l with
  | nil => simp [Jsonbin.formatList, jsMapIdx, jsJoin]
  | cons x u =>
    rw [if_neg (by simp : ¬(x :: u : List String) = [])]
    unfold Jsonbin.formatList
    rw [if_neg (by simp), if_neg (by simp), jsMapIdx_append_one, jsJoin_concat,
      if_neg (jsMapIdx_ne_nil _ _ _ (by simp))]
    simp

lemma prettyList_eq_formatList : Lowdb.prettyList = Jsonbin.formatList := rfl

lemma getList_setList_self (db : TaskDocument) (name : String) (l : List String) :
    getList (setList db name l) name = l := by
  by_cases h : name = "weekday" <;> simp [getList, setList, h]

lemma getList_setList_other (db : TaskDocument) (name : String) (l : List String)
    (h : name = "weekday" ∨ name = "weekend") :
    getList (setList db name l) (otherListName name) = getList db (otherListName name) := by
  rcases h with rfl | rfl <;> simp [getList, setList, otherListName]

lemma setList_getList_self (db : TaskDocument) (name : String) :
    setList db name (getList db name) = db := by
  by_cases h : name = "weekday" <;> simp [getList, setList, h]

lemma invariant_getList (db : TaskDocument) (name : String) (h : invariant db) :
    ∀ s ∈ getList db name, jsTrim s ≠ "" := by
  unfold getList; split
  · exact h.1
  · exact h.2

lemma invariant_setList (db : TaskDocument) (name : String) (l : List String)
    (h : invariant db) (hl : ∀ s ∈ l, jsTrim s ≠ "") : invariant (setList db name l) := by
  simp only [invariant, setList]
  split
  · exact ⟨hl, h.2⟩
  · exact ⟨h.1, hl⟩

lemma mem_jsSet (l : List String) (q : JsRat) (v s : String) (h : s ∈ jsSet l q v) :
    s ∈ l ∨ s = v := by
  unfold jsSet at h
  split at h
  · exact List.mem_or_eq_of_mem_set h
  · exact Or.inl h

lemma mem_jsSplice1_rest (l : List String) (q : JsRat) (s : String)
    (h : s ∈ (jsSplice1 l q).2) : s ∈ l := by
  simp only [jsSplice1] at h
  rcases List.mem_append.mp h with h | h
  · exact List.take_subset _ _ h
  · exact List.drop_subset _ _ h


/-! ### Characterization lemmas for the command handlers -/

lemma jsNumDisplay_intVal (q : JsRat) (k : ℕ) (hd : 0 < q.d) (hv : q.n = (k : ℤ) * q.d) :
    jsNumDisplay q = toString (k : ℤ) := by
  unfold jsNumDisplay JsRat.trunc
  rw [hv, if_pos (Int.mul_emod_left _ _), Int.mul_tdiv_cancel _ (by exact_mod_cast hd.ne')]

lemma JsRat.sub1_intVal (q : JsRat) (i : ℕ) (hi : 1 ≤ i) (hv : q.n = (i : ℤ) * q.d) :
    q.sub1.n = ((i - 1 : ℕ) : ℤ) * q.sub1.d := by
  simp only [JsRat.sub1, hv]
  push_cast [Nat.cast_sub hi]
  ring

lemma jsonbin_add_eq (text u : String) (db : TaskDocument) (name task : String)
    (hc : cmdOf text = "/add")
    (h1 : (partsOf text).getD 1 "" = name)
    (hn : name = "weekday" ∨ name = "weekend")
    (ht : jsTrim (jsJoin " " ((partsOf text).drop 2)) = task)
    (hne : task ≠ "") :
    Jsonbin.handleCommand text u u db =
      Outcome.reply (some (setList db name (getList db name ++ [task])))
        ("✅ Added to *" ++ name ++ "*: " ++ task) := by
  unfold Jsonbin.handleCommand
  simp only [List.getD_eq_getElem?_getD] at h1
  rcases hn with rfl | rfl <;> simp [hc, h1, ht, hne]

lemma jsonbin_edit_eq (text u : String) (db : TaskDocument) (name newText old : String)
    (q : JsRat) (i : ℕ)
    (hc : cmdOf text = "/edit")
    (h1 : (partsOf text).getD 1 "" = name)
    (hn : name = "weekday" ∨ name = "weekend")
    (hq : jsNumber ((partsOf text)[2]?) = JsNum.num q)
    (hv : q.n = (i : ℤ) * q.d)
    (hi : 1 ≤ i)
    (ht : jsTrim (jsJoin " " ((partsOf text).drop 3)) = newText)
    (hne : newText ≠ "")
    (hold : (getList db name)[i - 1]? = some old)
    (holdne : old ≠ "") :
    Jsonbin.handleCommand text u u db =
      Outcome.reply (some (setList db name ((getList db name).set (i - 1) newText)))
        ("✏️ Edited *" ++ name ++ "* " ++ toString (i : ℤ) ++ ": \"" ++ old ++ "\" → \"" ++
          newText ++ "\"") := by
  have hd := jsNumber_d_pos _ _ hq
  have hi1 : (1 : ℤ) ≤ (i : ℤ) := by exact_mod_cast hi
  have hd1 : (0 : ℤ) < (q.d : ℤ) := by exact_mod_cast hd
  have hn0 : q.n ≠ 0 := by
    have : (0 : ℤ) < q.n := by rw [hv]; nlinarith
    exact this.ne'
  have hsubv := JsRat.sub1_intVal q i hi hv
  have hsubd : (0 : ℕ) < q.sub1.d := hd
  have hget : jsGet (getList db name) q.sub1 = (getList db name)[i - 1]? :=
    jsGet_intVal _ _ (i - 1) hsubd hsubv
  have hset : jsSet (getList db name) q.sub1 newText = (getList db name).set (i - 1) newText :=
    jsSet_intVal _ _ _ (i - 1) hsubd hsubv
  have hdisp : jsNumDisplay q = toString (i : ℤ) := jsNumDisplay_intVal q i hd hv
  unfold Jsonbin.handleCommand
  simp only [List.getD_eq_getElem?_getD] at h1
  simp [hc, h1, hq, hn, hn0, ht, hne, hget, hold, holdne, hset, hdisp]

lemma jsonbin_view_eq (text u : String) (db : TaskDocument) (name : String)
    (hc : cmdOf text = "/view")
    (h1 : (partsOf text).getD 1 "" = name)
    (hn : name = "weekday" ∨ name = "weekend") :
    Jsonbin.handleCommand text u u db =
      Outcome.reply none ("*" ++ name ++ "*\n" ++ Jsonbin.formatList (getList db name)) := by
  unfold Jsonbin.handleCommand
  simp only [List.getD_eq_getElem?_getD] at h1
  simp [hc, h1, hn]

lemma jsonbin_remove_eq (text u : String) (db : TaskDocument) (name removed : String)
    (q : JsRat) (i : ℕ)
    (hc : cmdOf text = "/remove")
    (h1 : (partsOf text).getD 1 "" = name)
    (hn : name = "weekday" ∨ name = "weekend")
    (hq : jsNumber ((partsOf text)[2]?) = JsNum.num q)
    (hv : q.n = (i : ℤ) * q.d)
    (hi : 1 ≤ i) (hil : i ≤ (getList db name).length)
    (hrem : (getList db name)[i - 1]? = some removed) :
    Jsonbin.handleCommand text u u db =
      Outcome.reply
        (some (setList db name ((getList db name).take (i - 1) ++ (getList db name).drop i)))
        ("🗑️ Removed from *" ++ name ++ "*: " ++ removed) := by
  have hd := jsNumber_d_pos _ _ hq
  have hi1 : (1 : ℤ) ≤ (i : ℤ) := by exact_mod_cast hi
  have hd1 : (0 : ℤ) < (q.d : ℤ) := by exact_mod_cast hd
  have hn0 : q.n ≠ 0 := by
    have : (0 : ℤ) < q.n := by rw [hv]; nlinarith
    exact this.ne'
  have hl1 : i - 1 < (getList db name).length := by omega
  have hsubv := JsRat.sub1_intVal q i hi hv
  have hsp : jsSplice1 (getList db name) q.sub1 =
      ([(getList db name).getD (i - 1) ""],
        (getList db name).take (i - 1) ++ (getList db name).drop (i - 1 + 1)) :=
    jsSplice1_intVal_lt _ _ (i - 1) hd hsubv hl1
  have hremd : (getList db name).getD (i - 1) "" = removed := by
    rw [List.getD_eq_getElem?_getD, hrem]
    rfl
  have hidx : i - 1 + 1 = i := by omega
  rw [hremd, hidx] at hsp
  unfold Jsonbin.handleCommand
  simp only [List.getD_eq_getElem?_getD] at h1
  simp [hc, h1, hq, hn, hn0, hsp]

lemma lowdb_view_eq (text : String) (db : TaskDocument) (name : String)
    (hc : cmdOf text = "/view")
    (h1 : (partsOf text).getD 1 "" = name)
    (hn : name = "weekday" ∨ name = "weekend") :
    Lowdb.handleCommand text db =
      Outcome.reply none ("*" ++ name ++ "*\n" ++ Lowdb.prettyList (getList db name)) := by
  unfold Lowdb.handleCommand
  simp only [List.getD_eq_getElem?_getD] at h1
  simp [hc, h1, hn]

lemma lowdb_add_eq (text : String) (db : TaskDocument) (name task : String)
    (hc : cmdOf text = "/add")
    (h1 : (partsOf text).getD 1 "" = name)
    (hn : name = "weekday" ∨ name = "weekend")
    (ht : jsTrim (jsJoin " " ((partsOf text).drop 2)) = task)
    (hne : task ≠ "") :
    Lowdb.handleCommand text db =
      Outcome.reply (some (setList db name (getList db name ++ [task])))
        ("Added to *" ++ name ++ "*: " ++ task) := by
  unfold Lowdb.handleCommand
  simp only [List.getD_eq_getElem?_getD] at h1
  simp [hc, h1, hn, ht, hne]

lemma lowdb_edit_eq (text : String) (db : TaskDocument) (name newText old : String)
    (q : JsRat) (i : ℕ)
    (hc : cmdOf text = "/edit")
    (h1 : (partsOf text).getD 1 "" = name)
    (hn : name = "weekday" ∨ name = "weekend")
    (hq : jsNumber ((partsOf text)[2]?) = JsNum.num q)
    (hv : q.n = (i : ℤ) * q.d)
    (hi : 1 ≤ i)
    (ht : jsTrim (jsJoin " " ((partsOf text).drop 3)) = newText)
    (hne : newText ≠ "")
    (hold : (getList db name)[i - 1]? = some old)
    (holdne : old ≠ "") :
    Lowdb.handleCommand text db =
      Outcome.reply (some (setList db name ((getList db name).set (i - 1) newText)))
        ("Edited *" ++ name ++ "* " ++ toString (i : ℤ) ++ ": \"" ++ old ++ "\" → \"" ++
          newText ++ "\"") := by
  have hd := jsNumber_d_pos _ _ hq
  have hi1 : (1 : ℤ) ≤ (i : ℤ) := by exact_mod_cast hi
  have hd1 : (0 : ℤ) < (q.d : ℤ) := by exact_mod_cast hd
  have hmod : q.n % (q.d : ℤ) = 0 := by rw [hv]; exact Int.mul_emod_left _ _
  have hlt : ¬(q.n < (q.d : ℤ)) := by rw [hv]; push_neg; nlinarith
  have hsubv := JsRat.sub1_intVal q i hi hv
  have hget : jsGet (getList db name) q.sub1 = (getList db name)[i - 1]? :=
    jsGet_intVal _ _ (i - 1) hd hsubv
  have hset : jsSet (getList db name) q.sub1 newText = (getList db name).set (i - 1) newText :=
    jsSet_intVal _ _ _ (i - 1) hd hsubv
  have hdisp : jsNumDisplay q = toString (i : ℤ) := jsNumDisplay_intVal q i hd hv
  unfold Lowdb.handleCommand
  simp only [List.getD_eq_getElem?_getD] at h1
  simp [hc, h1, hq, hn, hmod, hlt, ht, hne, hget, hold, holdne, hset, hdisp]

lemma lowdb_remove_eq (text : String) (db : TaskDocument) (name removed : String)
    (q : JsRat) (i : ℕ)
    (hc : cmdOf text = "/remove")
    (h1 : (partsOf text).getD 1 "" = name)
    (hn : name = "weekday" ∨ name = "weekend")
    (hq : jsNumber ((partsOf text)[2]?) = JsNum.num q)
    (hv : q.n = (i : ℤ) * q.d)
    (hi : 1 ≤ i) (hil : i ≤ (getList db name).length)
    (hrem : (getList db name)[i - 1]? = some removed) :
    Lowdb.handleCommand text db =
      Outcome.reply
        (some (setList db name ((getList db name).take (i - 1) ++ (getList db name).drop i)))
        ("Removed from *" ++ name ++ "*: " ++ removed) := by
  have hd := jsNumber_d_pos _ _ hq
  have hi1 : (1 : ℤ) ≤ (i : ℤ) := by exact_mod_cast hi
  have hd1 : (0 : ℤ) < (q.d : ℤ) := by exact_mod_cast hd
  have hmod : q.n % (q.d : ℤ) = 0 := by rw [hv]; exact Int.mul_emod_left _ _
  have hlt : ¬(q.n < (q.d : ℤ)) := by rw [hv]; push_neg; nlinarith
  have hl1 : i - 1 < (getList db name).length := by omega
  have hsubv := JsRat.sub1_intVal q i hi hv
  have hsp : jsSplice1 (getList db name) q.sub1 =
      ([(getList db name).getD (i - 1) ""],
        (getList db name).take (i - 1) ++ (getList db name).drop (i - 1 + 1)) :=
    jsSplice1_intVal_lt _ _ (i - 1) hd hsubv hl1
  have hremd : (getList db name).getD (i - 1) "" = removed := by
    rw [List.getD_eq_getElem?_getD, hrem]
    rfl
  have hidx : i - 1 + 1 = i := by omega
  rw [hremd, hidx] at hsp
  unfold Lowdb.handleCommand
  simp only [List.getD_eq_getElem?_getD] at h1
  simp [hc, h1, hq, hn, hmod, hlt, hsp]

lemma intVal_of_cond (q : JsRat) (hd : 0 < q.d) (hmod : q.n % (q.d : ℤ) = 0)
    (hge : (q.d : ℤ) ≤ q.n) : ∃ k : ℕ, 1 ≤ k ∧ q.n = (k : ℤ) * q.d := by
  have hdvd : (q.d : ℤ) ∣ q.n := Int.dvd_of_emod_eq_zero hmod
  obtain ⟨m, hm⟩ := hdvd
  have hd1 : (0 : ℤ) < (q.d : ℤ) := by exact_mod_cast hd
  have hm1 : 1 ≤ m := by nlinarith
  refine ⟨m.toNat, by omega, ?_⟩
  rw [hm, Int.toNat_of_nonneg (by omega)]
  ring

lemma lowdb_edit_invalid (text : String) (db : TaskDocument)
    (hc : cmdOf text = "/edit")
    (hbad : ¬ validIndexFor (jsNumber ((partsOf text)[2]?))
      (getList db ((partsOf text).getD 1 "")).length) :
    docAfter (Lowdb.handleCommand text db) db = db ∧
    ∃ sd msg, Lowdb.handleCommand text db = Outcome.reply sd msg ∧
      (msg = "Usage: /edit <weekday|weekend> <index> <new text>" ∨
        msg = "Index out of range.") := by
  unfold Lowdb.handleCommand
  cases hjn : jsNumber ((partsOf text)[2]?) with
  | nan =>
    simp only [hc, hjn, ite_true]
    exact ⟨rfl, none, _, rfl, Or.inl rfl⟩
  | num q =>
    have hd := jsNumber_d_pos _ _ hjn
    simp only [hc, hjn, ite_true]
    by_cases hcnd : ¬((partsOf text).getD 1 "" = "weekday" ∨
          (partsOf text).getD 1 "" = "weekend") ∨
        q.n % (q.d : ℤ) ≠ 0 ∨ q.n < (q.d : ℤ) ∨
        jsTrim (jsJoin " " ((partsOf text).drop 3)) = ""
    · rw [if_pos hcnd]
      exact ⟨rfl, none, _, rfl, Or.inl rfl⟩
    · rw [if_neg hcnd]
      push_neg at hcnd
      obtain ⟨hnames, hmod, hge, hnew⟩ := hcnd
      obtain ⟨k, hk1, hkv⟩ := intVal_of_cond q hd hmod hge
      have hklen : (getList db ((partsOf text).getD 1 "")).length < k := by
        by_contra hle
        exact hbad ⟨q, k, hjn, hk1, by omega, hkv⟩
      have hsubv := JsRat.sub1_intVal q k hk1 hkv
      have hget : jsGet (getList db ((partsOf text).getD 1 "")) q.sub1 =
          (getList db ((partsOf text).getD 1 ""))[k - 1]? :=
        jsGet_intVal _ _ (k - 1) hd hsubv
      have hnone : (getList db ((partsOf text).getD 1 ""))[k - 1]? = none :=
        List.getElem?_eq_none (by omega)
      rw [hget, hnone]
      exact ⟨rfl, none, _, rfl, Or.inr rfl⟩

lemma lowdb_remove_invalid (text : String) (db : TaskDocument)
    (hc : cmdOf text = "/remove")
    (hbad : ¬ validIndexFor (jsNumber ((partsOf text)[2]?))
      (getList db ((partsOf text).getD 1 "")).length) :
    docAfter (Lowdb.handleCommand text db) db = db ∧
    ∃ sd msg, Lowdb.handleCommand text db = Outcome.reply sd msg ∧
      (msg = "Usage: /remove <weekday|weekend> <index>" ∨
        msg = "Index out of range.") := by
  unfold Lowdb.handleCommand
  cases hjn : jsNumber ((partsOf text)[2]?) with
  | nan =>
    simp only [hc, hjn, ite_true]
    exact ⟨rfl, none, _, rfl, Or.inl rfl⟩
  | num q =>
    have hd := jsNumber_d_pos _ _ hjn
    simp only [hc, hjn, ite_true]
    by_cases hcnd : ¬((partsOf text).getD 1 "" = "weekday" ∨
          (partsOf text).getD 1 "" = "weekend") ∨
        q.n % (q.d : ℤ) ≠ 0 ∨ q.n < (q.d : ℤ)
    · rw [if_pos hcnd]
      exact ⟨rfl, none, _, rfl, Or.inl rfl⟩
    · rw [if_neg hcnd]
      push_neg at hcnd
      obtain ⟨hnames, hmod, hge⟩ := hcnd
      obtain ⟨k, hk1, hkv⟩ := intVal_of_cond q hd hmod hge
      have hklen : (getList db ((partsOf text).getD 1 "")).length < k := by
        by_contra hle
        exact hbad ⟨q, k, hjn, hk1, by omega, hkv⟩
      have hsubv := JsRat.sub1_intVal q k hk1 hkv
      have hsp : jsSplice1 (getList db ((partsOf text).getD 1 "")) q.sub1 =
          ([], getList db ((partsOf text).getD 1 "")) :=
        jsSplice1_intVal_ge _ _ (k - 1) hd hsubv (by omega)
      rw [hsp]
      refine ⟨?_, some (setList db ((partsOf text).getD 1 "")
        (getList db ((partsOf text).getD 1 ""))), "Index out of range.", rfl, Or.inr rfl⟩
      simp [docAfter, setList_getList_self]

lemma lowdb_cond_of_not_intGe1 (v : JsNum) (q : JsRat) (hjn : v = JsNum.num q)
    (hd : 0 < q.d) (hbad : ¬ intIndexGe1 v) :
    q.n % (q.d : ℤ) ≠ 0 ∨ q.n < (q.d : ℤ) := by
  by_contra hcon
  push_neg at hcon
  obtain ⟨hmod, hge⟩ := hcon
  apply hbad
  have hdvd : (q.d : ℤ) ∣ q.n := Int.dvd_of_emod_eq_zero hmod
  obtain ⟨m, hm⟩ := hdvd
  have hd1 : (0 : ℤ) < (q.d : ℤ) := by exact_mod_cast hd
  have hm1 : 1 ≤ m := by nlinarith
  refine ⟨q, m.toNat, hjn, by omega, ?_⟩
  rw [hm, Int.toNat_of_nonneg (by omega)]
  ring

lemma lowdb_edit_badIdx (text : String) (db : TaskDocument)
    (hc : cmdOf text = "/edit")
    (hbad : ¬ intIndexGe1 (jsNumber ((partsOf text)[2]?))) :
    Lowdb.handleCommand text db =
      Outcome.reply none "Usage: /edit <weekday|weekend> <index> <new text>" := by
  unfold Lowdb.handleCommand
  cases hjn : jsNumber ((partsOf text)[2]?) with
  | nan => simp [hc, hjn]
  | num q =>
    have hd := jsNumber_d_pos _ _ hjn
    rcases lowdb_cond_of_not_intGe1 _ q hjn hd hbad with h | h <;> simp [hc, hjn, h]

lemma lowdb_remove_badIdx (text : String) (db : TaskDocument)
    (hc : cmdOf text = "/remove")
    (hbad : ¬ intIndexGe1 (jsNumber ((partsOf text)[2]?))) :
    Lowdb.handleCommand text db =
      Outcome.reply none "Usage: /remove <weekday|weekend> <index>" := by
  unfold Lowdb.handleCommand
  cases hjn : jsNumber ((partsOf text)[2]?) with
  | nan => simp [hc, hjn]
  | num q =>
    have hd := jsNumber_d_pos _ _ hjn
    rcases lowdb_cond_of_not_intGe1 _ q hjn hd hbad with h | h <;> simp [hc, hjn, h]

lemma tail_getD1 {α} (d : α) (l1 l2 : List α) (h : l1.tail = l2.tail) :
    l1.getD 1 d = l2.getD 1 d := by
  cases l1 <;> cases l2 <;> simp_all

lemma tail_getElem2 {α} (l1 l2 : List α) (h : l1.tail = l2.tail) : l1[2]? = l2[2]? := by
  cases l1 <;> cases l2 <;> simp_all

lemma tail_drop2 {α} (l1 l2 : List α) (h : l1.tail = l2.tail) : l1.drop 2 = l2.drop 2 := by
  cases l1 <;> cases l2 <;> simp_all [List.drop]

lemma tail_drop3 {α} (l1 l2 : List α) (h : l1.tail = l2.tail) : l1.drop 3 = l2.drop 3 := by
  cases l1 <;> cases l2 <;> simp_all [List.drop]

lemma handleCommand_parts_congr (t1 t2 u : String) (db : TaskDocument)
    (hh : jsToLower ((partsOf t1).headD "") = jsToLower ((partsOf t2).headD ""))
    (ht : (partsOf t1).tail = (partsOf t2).tail) :
    Jsonbin.handleCommand t1 u u db = Jsonbin.handleCommand t2 u u db ∧
    Lowdb.handleCommand t1 db = Lowdb.handleCommand t2 db := by
  have hc : cmdOf t1 = cmdOf t2 := hh
  have hA := tail_getD1 "" _ _ ht
  have hB := tail_getElem2 _ _ ht
  have hC := tail_drop2 _ _ ht
  have hD := tail_drop3 _ _ ht
  constructor
  · unfold Jsonbin.handleCommand
    rw [hc, hA, hB, hC, hD]
  · unfold Lowdb.handleCommand
    rw [hc, hA, hB, hC, hD]

lemma jsonbin_step_invariant (text f c : String) (db : TaskDocument) (h : invariant db) :
    invariant (docAfter (Jsonbin.handleCommand text f c db) db) := by
  unfold Jsonbin.handleCommand
  by_cases hauth : f ≠ c
  · rw [if_pos hauth]; simpa [docAfter] using h
  rw [if_neg hauth]
  by_cases h1 : cmdOf text = "/help"
  · rw [if_pos h1]; simpa [docAfter] using h
  rw [if_neg h1]
  by_cases h2 : cmdOf text = "/lists"
  · rw [if_pos h2]; simpa [docAfter] using h
  rw [if_neg h2]
  by_cases h3 : cmdOf text = "/view"
  · rw [if_pos h3]; dsimp only; split <;> simpa [docAfter] using h
  rw [if_neg h3]
  by_cases h4 : cmdOf text = "/add"
  · rw [if_pos h4]
    dsimp only
    by_cases hg : ¬((partsOf text).getD 1 "" = "weekday" ∨
          (partsOf text).getD 1 "" = "weekend") ∨
        jsTrim (jsJoin " " ((partsOf text).drop 2)) = ""
    · rw [if_pos hg]; simpa [docAfter] using h
    · rw [if_neg hg]
      push_neg at hg
      simp only [docAfter]
      apply invariant_setList _ _ _ h
      intro s hs
      rcases List.mem_append.mp hs with hs | hs
      · exact invariant_getList _ _ h s hs
      · rw [List.mem_singleton.mp hs]
        exact jsTrim_self_ne _ _ rfl hg.2
  rw [if_neg h4]
  by_cases h5 : cmdOf text = "/edit"
  · rw [if_pos h5]
    dsimp only
    cases hjn : jsNumber ((partsOf text)[2]?) with
    | nan => simpa [docAfter] using h
    | num q =>
      dsimp only
      by_cases hg : ¬((partsOf text).getD 1 "" = "weekday" ∨
            (partsOf text).getD 1 "" = "weekend") ∨
          q.n = 0 ∨ jsTrim (jsJoin " " ((partsOf text).drop 3)) = ""
      · rw [if_pos hg]; simpa [docAfter] using h
      · rw [if_neg hg]
        push_neg at hg
        split
        · simpa [docAfter] using h
        · next old hold =>
            by_cases ho : old = ""
            · rw [if_pos ho]; simpa [docAfter] using h
            · rw [if_neg ho]
              simp only [docAfter]
              apply invariant_setList _ _ _ h
              intro s hs
              rcases mem_jsSet _ _ _ _ hs with hs | hs
              · exact invariant_getList _ _ h s hs
              · rw [hs]
                exact jsTrim_self_ne _ _ rfl hg.2.2
  rw [if_neg h5]
  by_cases h6 : cmdOf text = "/remove"
  · rw [if_pos h6]
    dsimp only
    cases hjn : jsNumber ((partsOf text)[2]?) with
    | nan => simpa [docAfter] using h
    | num q =>
      dsimp only
      by_cases hg : ¬((partsOf text).getD 1 "" = "weekday" ∨
            (partsOf text).getD 1 "" = "weekend") ∨ q.n = 0
      · rw [if_pos hg]; simpa [docAfter] using h
      · rw [if_neg hg]
        split
        all_goals
          simp only [docAfter]
          apply invariant_setList _ _ _ h
          intro s hs
          exact invariant_getList _ _ h s (mem_jsSplice1_rest _ _ _ hs)
  rw [if_neg h6]
  simpa [docAfter] using h

lemma lowdb_step_invariant (text : String) (db : TaskDocument) (h : invariant db) :
    invariant (docAfter (Lowdb.handleCommand text db) db) := by
  unfold Lowdb.handleCommand
  by_cases h1 : cmdOf text = "/help"
  · rw [if_pos h1]; simpa [docAfter] using h
  rw [if_neg h1]
  by_cases h2 : cmdOf text = "/lists"
  · rw [if_pos h2]; simpa [docAfter] using h
  rw [if_neg h2]
  by_cases h3 : cmdOf text = "/view"
  · rw [if_pos h3]; dsimp only; split <;> simpa [docAfter] using h
  rw [if_neg h3]
  by_cases h4 : cmdOf text = "/add"
  · rw [if_pos h4]
    dsimp only
    by_cases hg : ¬((partsOf text).getD 1 "" = "weekday" ∨
        (partsOf text).getD 1 "" = "weekend")
    · rw [if_pos hg]; simpa [docAfter] using h
    · rw [if_neg hg]
      by_cases hg2 : jsTrim (jsJoin " " ((partsOf text).drop 2)) = ""
      · rw [if_pos hg2]; simpa [docAfter] using h
      · rw [if_neg hg2]
        simp only [docAfter]
        apply invariant_setList _ _ _ h
        intro s hs
        rcases List.mem_append.mp hs with hs | hs
        · exact invariant_getList _ _ h s hs
        · rw [List.mem_singleton.mp hs]
          exact jsTrim_self_ne _ _ rfl hg2
  rw [if_neg h4]
  by_cases h5 : cmdOf text = "/edit"
  · rw [if_pos h5]
    dsimp only
    cases hjn : jsNumber ((partsOf text)[2]?) with
    | nan => simpa [docAfter] using h
    | num q =>
      dsimp only
      by_cases hg : ¬((partsOf text).getD 1 "" = "weekday" ∨
            (partsOf text).getD 1 "" = "weekend") ∨
          q.n % (q.d : ℤ) ≠ 0 ∨ q.n < (q.d : ℤ) ∨
          jsTrim (jsJoin " " ((partsOf text).drop 3)) = ""
      · rw [if_pos hg]; simpa [docAfter] using h
      · rw [if_neg hg]
        push_neg at hg
        split
        · simpa [docAfter] using h
        · next old hold =>
            by_cases ho : old = ""
            · rw [if_pos ho]; simpa [docAfter] using h
            · rw [if_neg ho]
              simp only [docAfter]
              apply invariant_setList _ _ _ h
              intro s hs
              rcases mem_jsSet _ _ _ _ hs with hs | hs
              · exact invariant_getList _ _ h s hs
              · rw [hs]
                exact jsTrim_self_ne _ _ rfl hg.2.2.2
  rw [if_neg h5]
  by_cases h6 : cmdOf text = "/remove"
  · rw [if_pos h6]
    dsimp only
    cases hjn : jsNumber ((partsOf text)[2]?) with
    | nan => simpa [docAfter] using h
    | num q =>
      dsimp only
      by_cases hg : ¬((partsOf text).getD 1 "" = "weekday" ∨
            (partsOf text).getD 1 "" = "weekend") ∨
          q.n % (q.d : ℤ) ≠ 0 ∨ q.n < (q.d : ℤ)
      · rw [if_pos hg]; simpa [docAfter] using h
      · rw [if_neg hg]
        split
        all_goals
          simp only [docAfter]
          apply invariant_setList _ _ _ h
          intro s hs
          exact invariant_getList _ _ h s (mem_jsSplice1_rest _ _ _ hs)
  rw [if_neg h6]
  simpa [docAfter] using h

lemma lowdb_webhook_invariant (text f c : String) (db : TaskDocument) (h : invariant db) :
    invariant (docAfter (Lowdb.webhook text f c db) db) := by
  unfold Lowdb.webhook
  by_cases hauth : f ≠ c
  · rw [if_pos hauth]; simpa [docAfter] using h
  · rw [if_neg hauth]; exact lowdb_step_invariant text db h


/-! ### Remaining helper lemmas -/

lemma jsonbin_runSeq_invariant (steps : List (String × String × String)) (db : TaskDocument)
    (h : invariant db) : invariant (Jsonbin.runSeq steps db) := by
  induction steps generalizing db with
  | nil => exact h
  | cons s rest ih => exact ih _ (jsonbin_step_invariant s.1 s.2.1 s.2.2 db h)

lemma lowdb_runSeq_invariant (steps : List (String × String × String)) (db : TaskDocument)
    (h : invariant db) : invariant (Lowdb.runSeq steps db) := by
  induction steps generalizing db with
  | nil => exact h
  | cons s rest ih => exact ih _ (lowdb_webhook_invariant s.1 s.2.1 s.2.2 db h)

lemma invariant_empty : invariant ⟨[], []⟩ := by
  constructor <;> intro s hs <;> simp at hs

lemma invariant_not_mem_empty (db : TaskDocument) (h : invariant db) :
    "" ∉ db.weekday ∧ "" ∉ db.weekend := by
  constructor <;> intro hmem
  · exact h.1 "" hmem rfl
  · exact h.2 "" hmem rfl

/-! ### Claim theorems -/

/-- C1 counterexample: in the JSONBin variant, the non-integer index `1.5`
passes the `!idx` validation of `/remove` (only `0` and `NaN` are falsy),
and `splice` truncates it, so `/remove weekday 1.5` on a one-element list
removes the element and sends a success message — not a usage error, and the
targeted list is changed. -/
theorem c1_counterexample :
    Jsonbin.handleCommand "/remove weekday 1.5" "7" "7" ⟨["a"], []⟩ =
      Outcome.reply (some ⟨[], []⟩) "🗑️ Removed from *weekday*: a" ∧
    (⟨[], []⟩ : TaskDocument) ≠ ⟨["a"], []⟩ :=
  ⟨by decide, by decide⟩

/-- C1 (amended): in the lowdb variant (`src/index.js`) the claim holds as
stated: for `/edit` and `/remove`, an index that is 0, negative, `NaN` or not
an integer is answered with the usage-error response — for every document,
hence before any range check — and every invalid index (0, non-integer,
negative, or an integer beyond the current list length) leaves the document
unchanged and produces an error response. -/
theorem c1_claim (text : String) (db : TaskDocument) :
    (cmdOf text = "/edit" → ¬ intIndexGe1 (jsNumber ((partsOf text)[2]?)) →
      Lowdb.handleCommand text db =
        Outcome.reply none "Usage: /edit <weekday|weekend> <index> <new text>") ∧
    (cmdOf text = "/remove" → ¬ intIndexGe1 (jsNumber ((partsOf text)[2]?)) →
      Lowdb.handleCommand text db =
        Outcome.reply none "Usage: /remove <weekday|weekend> <index>") ∧
    (cmdOf text = "/edit" →
      ¬ validIndexFor (jsNumber ((partsOf text)[2]?))
        (getList db ((partsOf text).getD 1 "")).length →
      docAfter (Lowdb.handleCommand text db) db = db ∧
      ∃ sd msg, Lowdb.handleCommand text db = Outcome.reply sd msg ∧
        (msg = "Usage: /edit <weekday|weekend> <index> <new text>" ∨
          msg = "Index out of range.")) ∧
    (cmdOf text = "/remove" →
      ¬ validIndexFor (jsNumber ((partsOf text)[2]?))
        (getList db ((partsOf text).getD 1 "")).length →
      docAfter (Lowdb.handleCommand text db) db = db ∧
      ∃ sd msg, Lowdb.handleCommand text db = Outcome.reply sd msg ∧
        (msg = "Usage: /remove <weekday|weekend> <index>" ∨
          msg = "Index out of range.")) :=
  ⟨fun hc hb => lowdb_edit_badIdx text db hc hb,
   fun hc hb => lowdb_remove_badIdx text db hc hb,
   fun hc hb => lowdb_edit_invalid text db hc hb,
   fun hc hb => lowdb_remove_invalid text db hc hb⟩

/-- C1 witness: `/edit weekday 0 x` gets the usage error, and
`/remove weekday 5` on a one-element list leaves the document unchanged. -/
theorem c1_witness :
    Lowdb.handleCommand "/edit weekday 0 x" ⟨["a"], []⟩ =
      Outcome.reply none "Usage: /edit <weekday|weekend> <index> <new text>" ∧
    docAfter (Lowdb.handleCommand "/remove weekday 5" ⟨["a"], []⟩) ⟨["a"], []⟩ =
      ⟨["a"], []⟩ := by
  constructor
  · apply (c1_claim "/edit weekday 0 x" ⟨["a"], []⟩).1 (by decide)
    rintro ⟨q, k, hq, hk, hv⟩
    rw [show jsNumber ((partsOf "/edit weekday 0 x")[2]?) = JsNum.num ⟨0, 1⟩ by decide] at hq
    cases hq
    simp at hv
    omega
  · refine ((c1_claim "/remove weekday 5" ⟨["a"], []⟩).2.2.2 (by decide) ?_).1
    rintro ⟨q, k, hq, hk, hkl, hv⟩
    rw [show jsNumber ((partsOf "/remove weekday 5")[2]?) = JsNum.num ⟨5, 1⟩ by decide] at hq
    cases hq
    simp at hv
    rw [show (getList ⟨["a"], []⟩ ((partsOf "/remove weekday 5").getD 1 "")).length = 1
      by decide] at hkl
    omega

/-- C2: in both variants, `/add` on a valid list name with a task that is
non-empty after trimming appends the task to the end of that list, leaves the
other list unchanged, and a subsequent `/view` of the same list renders the
task as the last numbered entry (`<n+1>. <task>`). -/
theorem c2_claim (text viewText u : String) (db : TaskDocument) (name t : String)
    (hc : cmdOf text = "/add")
    (h1 : (partsOf text).getD 1 "" = name)
    (hn : name = "weekday" ∨ name = "weekend")
    (ht : jsTrim (jsJoin " " ((partsOf text).drop 2)) = t)
    (hne : t ≠ "")
    (hvc : cmdOf viewText = "/view")
    (hv1 : (partsOf viewText).getD 1 "" = name) :
    ∃ db2,
      Jsonbin.handleCommand text u u db =
        Outcome.reply (some db2) ("✅ Added to *" ++ name ++ "*: " ++ t) ∧
      Lowdb.handleCommand text db =
        Outcome.reply (some db2) ("Added to *" ++ name ++ "*: " ++ t) ∧
      getList db2 name = getList db name ++ [t] ∧
      getList db2 (otherListName name) = getList db (otherListName name) ∧
      Jsonbin.handleCommand viewText u u db2 =
        Outcome.reply none ("*" ++ name ++ "*\n" ++
          Jsonbin.formatList (getList db name ++ [t])) ∧
      Lowdb.handleCommand viewText db2 =
        Outcome.reply none ("*" ++ name ++ "*\n" ++
          Lowdb.prettyList (getList db name ++ [t])) ∧
      Jsonbin.formatList (getList db name ++ [t]) =
        (if getList db name = [] then "" else Jsonbin.formatList (getList db name) ++ "\n") ++
          (toString ((getList db name).length + 1) ++ ". " ++ t) ∧
      Lowdb.prettyList (getList db name ++ [t]) =
        Jsonbin.formatList (getList db name ++ [t]) := by
  refine ⟨setList db name (getList db name ++ [t]),
    jsonbin_add_eq text u db name t hc h1 hn ht hne,
    lowdb_add_eq text db name t hc h1 hn ht hne,
    getList_setList_self db name _,
    getList_setList_other db name _ hn, ?_, ?_, formatList_concat _ t, ?_⟩
  · have h := jsonbin_view_eq viewText u (setList db name (getList db name ++ [t])) name hvc hv1 hn
    rwa [getList_setList_self] at h
  · have h := lowdb_view_eq viewText (setList db name (getList db name ++ [t])) name hvc hv1 hn
    rwa [getList_setList_self] at h
  · rw [prettyList_eq_formatList]

/-- C2 witness: `/add weekday buy milk` then `/view weekday` at a one-element
document. -/
theorem c2_witness :
    ∃ db2,
      Jsonbin.handleCommand "/add weekday buy milk" "7" "7" ⟨["x"], []⟩ =
        Outcome.reply (some db2) ("✅ Added to *" ++ "weekday" ++ "*: " ++ "buy milk") ∧
      Lowdb.handleCommand "/add weekday buy milk" ⟨["x"], []⟩ =
        Outcome.reply (some db2) ("Added to *" ++ "weekday" ++ "*: " ++ "buy milk") ∧
      getList db2 "weekday" = getList ⟨["x"], []⟩ "weekday" ++ ["buy milk"] ∧
      getList db2 (otherListName "weekday") = getList ⟨["x"], []⟩ (otherListName "weekday") ∧
      Jsonbin.handleCommand "/view weekday" "7" "7" db2 =
        Outcome.reply none ("*" ++ "weekday" ++ "*\n" ++
          Jsonbin.formatList (getList ⟨["x"], []⟩ "weekday" ++ ["buy milk"])) ∧
      Lowdb.handleCommand "/view weekday" db2 =
        Outcome.reply none ("*" ++ "weekday" ++ "*\n" ++
          Lowdb.prettyList (getList ⟨["x"], []⟩ "weekday" ++ ["buy milk"])) ∧
      Jsonbin.formatList (getList ⟨["x"], []⟩ "weekday" ++ ["buy milk"]) =
        (if getList ⟨["x"], []⟩ "weekday" = [] then ""
          else Jsonbin.formatList (getList ⟨["x"], []⟩ "weekday") ++ "\n") ++
          (toString ((getList ⟨["x"], []⟩ "weekday").length + 1) ++ ". " ++ "buy milk") ∧
      Lowdb.prettyList (getList ⟨["x"], []⟩ "weekday" ++ ["buy milk"]) =
        Jsonbin.formatList (getList ⟨["x"], []⟩ "weekday" ++ ["buy milk"]) :=
  c2_claim "/add weekday buy milk" "/view weekday" "7" ⟨["x"], []⟩ "weekday" "buy milk"
    (by decide) (by decide) (Or.inl rfl) (by decide) (by decide) (by decide) (by decide)

/-- C3 counterexample: position 1 exists in the list `[""]` (its length is
1), yet `/edit weekday 1 x` is answered with "Index out of range." in both
variants and performs no replacement, because the existence check tests JS
truthiness and the empty string is falsy. -/
theorem c3_counterexample :
    Jsonbin.handleCommand "/edit weekday 1 x" "7" "7" ⟨[""], []⟩ =
      Outcome.reply none "❌ Index out of range." ∧
    Lowdb.handleCommand "/edit weekday 1 x" ⟨[""], []⟩ =
      Outcome.reply none "Index out of range." ∧
    (1 : ℕ) ≤ ([""] : List String).length :=
  ⟨by decide, by decide, by decide⟩

/-- C3 (amended): in both variants, `/edit` on an existing position `i`
whose stored text is non-empty (which every reachable document guarantees,
see C10) with a new text non-empty after trimming replaces exactly position
`i`, leaves every other position and the list length unchanged, and leaves
the other list unchanged. -/
theorem c3_claim (text u : String) (db : TaskDocument) (name newText old : String)
    (q : JsRat) (i : ℕ)
    (hc : cmdOf text = "/edit")
    (h1 : (partsOf text).getD 1 "" = name)
    (hn : name = "weekday" ∨ name = "weekend")
    (hq : jsNumber ((partsOf text)[2]?) = JsNum.num q)
    (hv : q.n = (i : ℤ) * q.d)
    (hi : 1 ≤ i)
    (ht : jsTrim (jsJoin " " ((partsOf text).drop 3)) = newText)
    (hne : newText ≠ "")
    (hold : (getList db name)[i - 1]? = some old)
    (holdne : old ≠ "") :
    ∃ db2,
      Jsonbin.handleCommand text u u db =
        Outcome.reply (some db2) ("✏️ Edited *" ++ name ++ "* " ++ toString (i : ℤ) ++
          ": \"" ++ old ++ "\" → \"" ++ newText ++ "\"") ∧
      Lowdb.handleCommand text db =
        Outcome.reply (some db2) ("Edited *" ++ name ++ "* " ++ toString (i : ℤ) ++
          ": \"" ++ old ++ "\" → \"" ++ newText ++ "\"") ∧
      (getList db2 name).length = (getList db name).length ∧
      (getList db2 name)[i - 1]? = some newText ∧
      (∀ j, j ≠ i - 1 → (getList db2 name)[j]? = (getList db name)[j]?) ∧
      getList db2 (otherListName name) = getList db (otherListName name) := by
  have hlen : i - 1 < (getList db name).length := by
    obtain ⟨hlt, -⟩ := List.getElem?_eq_some.mp hold
    exact hlt
  refine ⟨setList db name ((getList db name).set (i - 1) newText),
    jsonbin_edit_eq text u db name newText old q i hc h1 hn hq hv hi ht hne hold holdne,
    lowdb_edit_eq text db name newText old q i hc h1 hn hq hv hi ht hne hold holdne,
    ?_, ?_, ?_, getList_setList_other db name _ hn⟩
  · rw [getList_setList_self]
    exact List.length_set _ _ _
  · rw [getList_setList_self]
    simp [List.getElem?_set, hlen]
  · intro j hj
    rw [getList_setList_self]
    simp [List.getElem?_set, Ne.symm hj]

/-- C3 witness: `/edit weekday 2 newer text` on `["a", "b"]`. -/
theorem c3_witness :
    ∃ db2,
      Jsonbin.handleCommand "/edit weekday 2 newer text" "7" "7" ⟨["a", "b"], []⟩ =
        Outcome.reply (some db2) ("✏️ Edited *" ++ "weekday" ++ "* " ++
          toString ((2 : ℕ) : ℤ) ++ ": \"" ++ "b" ++ "\" → \"" ++ "newer text" ++ "\"") ∧
      Lowdb.handleCommand "/edit weekday 2 newer text" ⟨["a", "b"], []⟩ =
        Outcome.reply (some db2) ("Edited *" ++ "weekday" ++ "* " ++
          toString ((2 : ℕ) : ℤ) ++ ": \"" ++ "b" ++ "\" → \"" ++ "newer text" ++ "\"") ∧
      (getList db2 "weekday").length = (getList ⟨["a", "b"], []⟩ "weekday").length ∧
      (getList db2 "weekday")[2 - 1]? = some "newer text" ∧
      (∀ j, j ≠ 2 - 1 →
        (getList db2 "weekday")[j]? = (getList ⟨["a", "b"], []⟩ "weekday")[j]?) ∧
      getList db2 (otherListName "weekday") =
        getList ⟨["a", "b"], []⟩ (otherListName "weekday") :=
  c3_claim "/edit weekday 2 newer text" "7" ⟨["a", "b"], []⟩ "weekday" "newer text"
    "b" ⟨2, 1⟩ 2 (by decide) (by decide) (Or.inl rfl) (by decide) (by decide) (by decide)
    (by decide) (by decide) (by decide) (by decide)

/-- C4: in both variants, `/remove` on an existing position `i` removes
exactly that entry, decreases the list length by one, keeps entries before
`i` at their positions, shifts every later entry down by one position,
echoes the removed entry's text in the response, and leaves the other list
unchanged. -/
theorem c4_claim (text u : String) (db : TaskDocument) (name removed : String)
    (q : JsRat) (i : ℕ)
    (hc : cmdOf text = "/remove")
    (h1 : (partsOf text).getD 1 "" = name)
    (hn : name = "weekday" ∨ name = "weekend")
    (hq : jsNumber ((partsOf text)[2]?) = JsNum.num q)
    (hv : q.n = (i : ℤ) * q.d)
    (hi : 1 ≤ i) (hil : i ≤ (getList db name).length)
    (hrem : (getList db name)[i - 1]? = some removed) :
    ∃ db2,
      Jsonbin.handleCommand text u u db =
        Outcome.reply (some db2) ("🗑️ Removed from *" ++ name ++ "*: " ++ removed) ∧
      Lowdb.handleCommand text db =
        Outcome.reply (some db2) ("Removed from *" ++ name ++ "*: " ++ removed) ∧
      (getList db2 name).length + 1 = (getList db name).length ∧
      (∀ j, j < i - 1 → (getList db2 name)[j]? = (getList db name)[j]?) ∧
      (∀ j, i - 1 ≤ j → (getList db2 name)[j]? = (getList db name)[j + 1]?) ∧
      getList db2 (otherListName name) = getList db (otherListName name) := by
  have hlen : i - 1 < (getList db name).length := by omega
  have htlen : ((getList db name).take (i - 1)).length = i - 1 := by
    rw [List.length_take]
    omega
  refine ⟨setList db name ((getList db name).take (i - 1) ++ (getList db name).drop i),
    jsonbin_remove_eq text u db name removed q i hc h1 hn hq hv hi hil hrem,
    lowdb_remove_eq text db name removed q i hc h1 hn hq hv hi hil hrem,
    ?_, ?_, ?_, getList_setList_other db name _ hn⟩
  · rw [getList_setList_self]
    simp only [List.length_append, List.length_take, List.length_drop]
    omega
  · intro j hj
    rw [getList_setList_self,
      List.getElem?_append_left (by omega : j < ((getList db name).take (i - 1)).length)]
    simp [List.getElem?_take, hj]
  · intro j hj
    rw [getList_setList_self,
      List.getElem?_append_right (by omega : ((getList db name).take (i - 1)).length ≤ j),
      List.getElem?_drop, htlen]
    congr 1
    omega

/-- C4 witness: `/remove weekday 1` on `["a", "b"]`. -/
theorem c4_witness :
    ∃ db2,
      Jsonbin.handleCommand "/remove weekday 1" "7" "7" ⟨["a", "b"], []⟩ =
        Outcome.reply (some db2) ("🗑️ Removed from *" ++ "weekday" ++ "*: " ++ "a") ∧
      Lowdb.handleCommand "/remove weekday 1" ⟨["a", "b"], []⟩ =
        Outcome.reply (some db2) ("Removed from *" ++ "weekday" ++ "*: " ++ "a") ∧
      (getList db2 "weekday").length + 1 = (getList ⟨["a", "b"], []⟩ "weekday").length ∧
      (∀ j, j < 1 - 1 →
        (getList db2 "weekday")[j]? = (getList ⟨["a", "b"], []⟩ "weekday")[j]?) ∧
      (∀ j, 1 - 1 ≤ j →
        (getList db2 "weekday")[j]? = (getList ⟨["a", "b"], []⟩ "weekday")[j + 1]?) ∧
      getList db2 (otherListName "weekday") =
        getList ⟨["a", "b"], []⟩ (otherListName "weekday") :=
  c4_claim "/remove weekday 1" "7" ⟨["a", "b"], []⟩ "weekday" "a" ⟨1, 1⟩ 1
    (by decide) (by decide) (Or.inl rfl) (by decide) (by decide) (by decide) (by decide)
    (by decide)

/-- C5: an update whose sender identity differs from the configured one is
dropped before any parsing or storage access: in both variants the outcome
for every command line and every document is `ignored` — no message is sent
and no document is saved. -/
theorem c5_claim (text fromId chatId : String) (db : TaskDocument)
    (h : fromId ≠ chatId) :
    Jsonbin.handleCommand text fromId chatId db = Outcome.ignored ∧
    Lowdb.webhook text fromId chatId db = Outcome.ignored := by
  constructor
  · unfold Jsonbin.handleCommand
    rw [if_pos h]
  · unfold Lowdb.webhook
    rw [if_pos h]

/-- C5 witness: sender "1" with configured identity "2". -/
theorem c5_witness :
    Jsonbin.handleCommand "/add weekday x" "1" "2" ⟨[], []⟩ = Outcome.ignored ∧
    Lowdb.webhook "/add weekday x" "1" "2" ⟨[], []⟩ = Outcome.ignored :=
  c5_claim "/add weekday x" "1" "2" ⟨[], []⟩ (by decide)

/-- C6: the storage client's save never propagates a failure — `saveData`
returns no error either way — so the message sent to the user after any
command is the same whether the persistence write succeeds or fails. -/
theorem c6_claim (text fromId chatId : String) (remote : TaskDocument) (saveOk : Bool) :
    (Jsonbin.handleWithSave text fromId chatId remote saveOk).2 =
      (Jsonbin.handleWithSave text fromId chatId remote true).2 := by
  unfold Jsonbin.handleWithSave
  cases Jsonbin.handleCommand text fromId chatId remote with
  | ignored => rfl
  | reply sd msg => cases sd <;> rfl

/-- C7 counterexample: a present but malformed record (missing the `weekend`
field) is truthy, so `getData` returns it unchanged instead of the default
document with both fields present. -/
theorem c7_counterexample :
    Jsonbin.getData (FetchResult.ok (some ⟨some [], none⟩)) ≠ defaultRecord ∧
    (Jsonbin.getData (FetchResult.ok (some ⟨some [], none⟩))).weekendField = none :=
  ⟨by decide, rfl⟩

/-- C7 (amended): `load` never fails outward — on a transport/parse error,
or when the persisted `record` is absent or null, it returns the default
document `{weekday: [], weekend: []}`; but a present (truthy) record is
returned as-is even when malformed, its missing fields are not filled in.
The lowdb variant's `initDB` behaves the same way. -/
theorem c7_claim :
    Jsonbin.getData FetchResult.fetchError = defaultRecord ∧
    Jsonbin.getData (FetchResult.ok none) = defaultRecord ∧
    (∀ r, Jsonbin.getData (FetchResult.ok (some r)) = r) ∧
    Lowdb.initDB none = defaultRecord ∧
    (∀ r, Lowdb.initDB (some r) = r) :=
  ⟨rfl, rfl, fun _ => rfl, rfl, fun _ => rfl⟩

/-- C8 counterexample: in the lowdb variant the digest for an empty selected
list still sends the header plus the rendered list (with the `_(empty)_`
placeholder), not a separate "nothing scheduled" message. -/
theorem c8_counterexample :
    Lowdb.digest "Monday" ⟨[], []⟩ =
      "🗓️ *Good morning!* Here is your *weekday* list for today:\n\n" ++
        Lowdb.prettyList (getList ⟨[], []⟩ (Lowdb.istDayType "Monday")) ∧
    Lowdb.prettyList (getList ⟨[], []⟩ (Lowdb.istDayType "Monday")) = "_(empty)_" :=
  ⟨by decide, by decide⟩

/-- C8 (amended): in both variants the digest selects "weekend" exactly when
the weekday name is Saturday or Sunday and "weekday" otherwise; the "nothing
scheduled" message on an empty selected list is sent by the JSONBin variant
only (the lowdb variant always renders the list). -/
theorem c8_claim (day : String) (db : TaskDocument) :
    (Jsonbin.getListTypeByDay day = "weekend" ↔ (day = "Saturday" ∨ day = "Sunday")) ∧
    (Lowdb.istDayType day = "weekend" ↔ (day = "Saturday" ∨ day = "Sunday")) ∧
    (Jsonbin.getListTypeByDay day = "weekday" ↔ ¬(day = "Saturday" ∨ day = "Sunday")) ∧
    (getList db (Jsonbin.getListTypeByDay day) = [] →
      Jsonbin.dailyDigest day db =
        "✅ You have no *" ++ Jsonbin.getListTypeByDay day ++ "* tasks today!") := by
  refine ⟨?_, ?_, ?_, ?_⟩
  · by_cases h : day = "Saturday" ∨ day = "Sunday" <;> simp [Jsonbin.getListTypeByDay, h]
  · by_cases h : day = "Saturday" ∨ day = "Sunday" <;> simp [Lowdb.istDayType, h]
  · by_cases h : day = "Saturday" ∨ day = "Sunday" <;> simp [Jsonbin.getListTypeByDay, h]
  · intro hempty
    unfold Jsonbin.dailyDigest
    dsimp only
    rw [hempty]
    simp

/-- C8 witness: Monday with an empty weekday list gets the "no tasks"
message; Saturday selects "weekend". -/
theorem c8_witness :
    Jsonbin.dailyDigest "Monday" ⟨[], ["x"]⟩ = "✅ You have no *weekday* tasks today!" ∧
    Lowdb.istDayType "Saturday" = "weekend" := by
  constructor
  · have h := (c8_claim "Monday" ⟨[], ["x"]⟩).2.2.2 (by decide)
    exact h.trans (by decide)
  · exact (c8_claim "Saturday" ⟨[], []⟩).2.1.mpr (Or.inl rfl)

/-- C9 counterexample: the code splits on single space characters, not on
whitespace — two consecutive spaces yield an empty token, so
`/view  weekday` (double space) is rejected with a usage error in both
variants, while whitespace tokenization (the spec's wording, `specTokenize`)
would produce `["/view", "weekday"]`. -/
theorem c9_counterexample :
    partsOf "/view  weekday" = ["/view", "", "weekday"] ∧
    specTokenize "/view  weekday" = ["/view", "weekday"] ∧
    Jsonbin.handleCommand "/view  weekday" "7" "7" ⟨["a"], []⟩ =
      Outcome.reply none "Usage: /view <weekday|weekend>" ∧
    Lowdb.handleCommand "/view  weekday" ⟨["a"], []⟩ =
      Outcome.reply none "Usage: /view <weekday|weekend>" :=
  ⟨by decide, by decide, by decide, by decide⟩

/-- C9 (amended): parsing factors through splitting the trimmed line on
single space characters, the first token selects the operation
case-insensitively, and the remaining tokens are the operation's arguments:
any two command lines with the same space-split tail and the same
lowercased first token are handled identically by both variants. -/
theorem c9_claim (t1 t2 u : String) (db : TaskDocument)
    (hh : jsToLower ((partsOf t1).headD "") = jsToLower ((partsOf t2).headD ""))
    (ht : (partsOf t1).tail = (partsOf t2).tail) :
    Jsonbin.handleCommand t1 u u db = Jsonbin.handleCommand t2 u u db ∧
    Lowdb.handleCommand t1 db = Lowdb.handleCommand t2 db :=
  handleCommand_parts_congr t1 t2 u db hh ht

/-- C9 witness: `/Add` and `/add` are handled identically. -/
theorem c9_witness :
    Jsonbin.handleCommand "/Add weekday ski" "7" "7" ⟨[], []⟩ =
      Jsonbin.handleCommand "/add weekday ski" "7" "7" ⟨[], []⟩ ∧
    Lowdb.handleCommand "/Add weekday ski" ⟨[], []⟩ =
      Lowdb.handleCommand "/add weekday ski" ⟨[], []⟩ :=
  c9_claim "/Add weekday ski" "/add weekday ski" "7" ⟨[], []⟩ (by decide) (by decide)

/-- C10: starting from the default document, every sequence of webhook
updates (arbitrary command lines and sender identities) preserves, in both
variants, the invariant that every stored element is non-empty after
trimming; in particular an empty-string element — which the `/edit`
existence check would misreport as out of range — is never reachable. -/
theorem c10_claim (steps : List (String × String × String)) :
    invariant (Jsonbin.runSeq steps ⟨[], []⟩) ∧ invariant (Lowdb.runSeq steps ⟨[], []⟩) ∧
    "" ∉ (Jsonbin.runSeq steps ⟨[], []⟩).weekday ∧
    "" ∉ (Jsonbin.runSeq steps ⟨[], []⟩).weekend ∧
    "" ∉ (Lowdb.runSeq steps ⟨[], []⟩).weekday ∧
    "" ∉ (Lowdb.runSeq steps ⟨[], []⟩).weekend := by
  have hJ := jsonbin_runSeq_invariant steps _ invariant_empty
  have hL := lowdb_runSeq_invariant steps _ invariant_empty
  obtain ⟨hJ1, hJ2⟩ := invariant_not_mem_empty _ hJ
  obtain ⟨hL1, hL2⟩ := invariant_not_mem_empty _ hL
  exact ⟨hJ, hL, hJ1, hJ2, hL1, hL2⟩
